import Mathlib

/-!
Verification of the durable event queue and job pipeline of the bako
repository, as a shallow embedding of the Rust sources.

Tables of the embedded SQLite store are modelled as Lean lists of rows;
the SQL statements of `src/db.rs`, `src/db/file_repo.rs`,
`src/db/job_repo.rs` and `src/db/embedding_repo.rs` become pure
functions on those lists.  Values produced by the environment
(`Uuid::new_v4`, `SystemTime::now`, `CURRENT_TIMESTAMP`) are passed as
explicit arguments.  SQLite compares TEXT columns by memcmp over their
UTF-8 bytes, which coincides with the code-point order used by the
String order of Lean, so `ORDER BY id DESC` is embedded as String
comparison.
-/

/-- A row of the `file_events` table created by `Database::new`:
`file_events(id, path, event_type, created_at, processed)`. -/
structure EventRow where
  id : String
  path : String
  event_type : String
  created_at : Int
  processed : Bool
deriving DecidableEq

/-- A row of the `files` table created by `Database::new` in `src/db.rs`
(this schema has no `size` column). -/
structure FileRow where
  id : String
  path : String
  file_type : String
  hash : String
  created_at : String
  updated_at : String
deriving DecidableEq

/-- A row of the `jobs` table assumed by `src/db/job_repo.rs`:
`jobs(id, file_id, status, error_message, created_at)`. -/
structure JobRow where
  id : String
  file_id : String
  status : String
  error_message : Option String
  created_at : String
deriving DecidableEq

/-- A row of the `embeddings` table assumed by `src/db/embedding_repo.rs`. -/
structure EmbeddingRow where
  id : String
  file_id : String
  embedding : String
deriving DecidableEq

/-- `FileEventType` of `src/db.rs`. -/
inductive FileEventType where
  | create
  | modify
  | delete
deriving DecidableEq

/-- `FileEventType::Display` of `src/db.rs`. -/
def FileEventType.toDbString : FileEventType → String
  | .create => "create"
  | .modify => "modify"
  | .delete => "delete"

/-- `FileEventType::from_string` of `src/db.rs`. -/
def FileEventType.from_string (s : String) : Option FileEventType :=
  if s = "create" then some .create
  else if s = "modify" then some .modify
  else if s = "delete" then some .delete
  else none

/-- The read-time parse in `Database::get_pending_events`:
`FileEventType::from_string(..).unwrap_or(FileEventType::Create)`. -/
def parseEventTypeOrCreate (s : String) : FileEventType :=
  (FileEventType.from_string s).getD .create

/-- `Database::queue_file_event`: INSERT INTO file_events
(id, path, event_type, created_at, processed) VALUES (?, ?, ?, ?, 0).
`freshId` is the `Uuid::new_v4` value and `now` the unix-seconds clock
reading taken inside the function. -/
def queue_file_event (freshId : String) (path : String) (t : FileEventType)
    (now : Int) (evs : List EventRow) : List EventRow :=
  evs ++ [⟨freshId, path, t.toDbString, now, false⟩]

/-- The ranking order of the window
`ROW_NUMBER() OVER (PARTITION BY path ORDER BY created_at DESC, id DESC)`
in `Database::get_pending_events`: `newerRanked a b` holds when `b` is
ranked strictly ahead of `a`, i.e. `b` is lexicographically greater in
`(created_at, id)`.  The id TEXT columns are compared as their
character lists, the order that SQLite BINARY collation induces. -/
def newerRanked (a b : EventRow) : Prop :=
  a.created_at < b.created_at ∨
    (a.created_at = b.created_at ∧ a.id.data < b.id.data)

instance (a b : EventRow) : Decidable (newerRanked a b) := by
  unfold newerRanked
  infer_instance

/-- Combines two rows of one path partition, keeping the `rn = 1` row. -/
def pickNewer (a b : EventRow) : EventRow :=
  if newerRanked a b then b else a

/-- The rows of the partition for path `p` in the CTE of
`get_pending_events`: unprocessed events with that path. -/
def unprocessedFor (evs : List EventRow) (p : String) : List EventRow :=
  evs.filter fun e => !e.processed && e.path == p

/-- The `rn = 1` row of the partition for path `p`, when the partition is
nonempty. -/
def newestForPath (evs : List EventRow) (p : String) : Option EventRow :=
  match unprocessedFor evs p with
  | [] => none
  | c :: cs => some (cs.foldl pickNewer c)

/-- The final `ORDER BY created_at ASC` of `get_pending_events`. -/
def timeLe (a b : EventRow) : Prop :=
  a.created_at ≤ b.created_at

instance : DecidableRel timeLe := fun a b =>
  inferInstanceAs (Decidable (a.created_at ≤ b.created_at))

instance : IsTotal EventRow timeLe :=
  ⟨fun a b => Int.le_total a.created_at b.created_at⟩

instance : IsTrans EventRow timeLe :=
  ⟨fun _ _ _ h1 h2 => le_trans h1 h2⟩

/-- The `rn = 1` rows of the CTE of `get_pending_events`: one row per
path that has at least one unprocessed event. -/
def selectedEvents (evs : List EventRow) : List EventRow :=
  (((evs.filter fun e => !e.processed).map (·.path)).dedup).filterMap
    (newestForPath evs)

/-- `Database::get_pending_events`: of the unprocessed events, one row
per path (the one ranked first by `created_at DESC, id DESC`), ordered
by `created_at ASC`, limited to `limit` rows. -/
def get_pending_events (limit : Nat) (evs : List EventRow) : List EventRow :=
  (List.insertionSort timeLe (selectedEvents evs)).take limit

/-- The WHERE clause of `Database::mark_event_processed`:
`path = ?1 AND created_at <= ?2 AND processed = 0`. -/
def eventMatches (p : String) (cutoff : Int) (e : EventRow) : Bool :=
  e.path == p && decide (e.created_at ≤ cutoff) && !e.processed

/-- `Database::mark_event_processed`: UPDATE file_events SET processed = 1
WHERE path = ?1 AND created_at <= ?2 AND processed = 0; returns the
number of rows updated together with the new table. -/
def mark_event_processed (p : String) (cutoff : Int)
    (evs : List EventRow) : Nat × List EventRow :=
  ((evs.filter (eventMatches p cutoff)).length,
   evs.map fun e =>
     if eventMatches p cutoff e then { e with processed := true } else e)

/-- Claim C6: `mark_event_processed` is idempotent: after a first call for a
path and cutoff, a second call with the same arguments updates zero rows
(and leaves the table unchanged), because the first call marked as
processed exactly the still-unprocessed events of that path with enqueue
time at most the cutoff. -/
theorem mark_event_processed_idempotent (p : String) (cutoff : Int)
    (evs : List EventRow) :
    (mark_event_processed p cutoff (mark_event_processed p cutoff evs).2).1 = 0 ∧
    (mark_event_processed p cutoff (mark_event_processed p cutoff evs).2).2 =
      (mark_event_processed p cutoff evs).2 := by
  constructor
  · simp only [mark_event_processed, List.length_eq_zero, List.filter_eq_nil_iff]
    intro a ha
    rcases List.mem_map.mp ha with ⟨e, _, rfl⟩
    by_cases h : eventMatches p cutoff e = true
    · simp only [h, if_true]
      simp [eventMatches]
    · simp only [if_neg h]
      exact h
  · simp only [mark_event_processed, List.map_map]
    apply List.map_congr_left
    intro e _
    by_cases h : eventMatches p cutoff e = true
    · simp only [Function.comp_apply, h, if_true]
      have h2 : eventMatches p cutoff { e with processed := true } = false := by
        simp [eventMatches]
      simp [h2]
    · simp only [Function.comp_apply, if_neg h, if_neg h]

/-- `pickNewer` returns one of its two arguments. -/
theorem pickNewer_eq_or (a b : EventRow) :
    pickNewer a b = a ∨ pickNewer a b = b := by
  unfold pickNewer
  split
  · exact Or.inr rfl
  · exact Or.inl rfl

/-- The row kept by `pickNewer` has an enqueue time at least that of the
left argument. -/
theorem created_at_le_pickNewer_left (a b : EventRow) :
    a.created_at ≤ (pickNewer a b).created_at := by
  by_cases h : newerRanked a b
  · simp only [pickNewer, if_pos h]
    rcases h with h | ⟨h, _⟩
    · exact le_of_lt h
    · exact le_of_eq h
  · simp [pickNewer, h]

/-- The row kept by `pickNewer` has an enqueue time at least that of the
right argument. -/
theorem created_at_le_pickNewer_right (a b : EventRow) :
    b.created_at ≤ (pickNewer a b).created_at := by
  by_cases h : newerRanked a b
  · simp [pickNewer, h]
  · simp only [pickNewer, if_neg h]
    unfold newerRanked at h
    push_neg at h
    exact h.1

/-- Folding `pickNewer` over a partition returns a member of it. -/
theorem foldl_pickNewer_mem :
    ∀ (cs : List EventRow) (c : EventRow), cs.foldl pickNewer c ∈ c :: cs := by
  intro cs
  induction cs with
  | nil => intro c; simp
  | cons a cs ih =>
      intro c
      rw [List.foldl_cons]
      rcases List.mem_cons.mp (ih (pickNewer c a)) with h2 | h2
      · rcases pickNewer_eq_or c a with h1 | h1
        · rw [h2, h1]; exact List.mem_cons_self _ _
        · rw [h2, h1]; exact List.mem_cons_of_mem _ (List.mem_cons_self _ _)
      · exact List.mem_cons_of_mem _ (List.mem_cons_of_mem _ h2)

/-- Folding `pickNewer` over a partition returns a row whose enqueue
time bounds every row of the partition. -/
theorem foldl_pickNewer_created_at_ge :
    ∀ (cs : List EventRow) (c : EventRow), ∀ x ∈ c :: cs,
      x.created_at ≤ (cs.foldl pickNewer c).created_at := by
  intro cs
  induction cs with
  | nil =>
      intro c x hx
      rw [List.mem_singleton.mp hx]
      exact le_refl _
  | cons a cs ih =>
      intro c x hx
      rw [List.foldl_cons]
      rcases List.mem_cons.mp hx with rfl | hx2
      · exact le_trans (created_at_le_pickNewer_left x a)
          (ih (pickNewer x a) _ (List.mem_cons_self _ _))
      rcases List.mem_cons.mp hx2 with rfl | hx3
      · exact le_trans (created_at_le_pickNewer_right c x)
          (ih (pickNewer c x) _ (List.mem_cons_self _ _))
      · exact ih (pickNewer c a) x (List.mem_cons_of_mem _ hx3)

/-- The `rn = 1` row of the partition for `p` is an unprocessed event of
the table with path `p`, and its enqueue time bounds that of every
unprocessed event of the table with path `p`. -/
theorem newestForPath_spec {evs : List EventRow} {p : String} {e : EventRow}
    (h : newestForPath evs p = some e) :
    e ∈ evs ∧ e.processed = false ∧ e.path = p ∧
      ∀ e' ∈ evs, e'.path = p → e'.processed = false →
        e'.created_at ≤ e.created_at := by
  unfold newestForPath at h
  cases hu : unprocessedFor evs p with
  | nil => rw [hu] at h; exact absurd h (by simp)
  | cons c cs =>
      rw [hu] at h
      have hfoldeq : cs.foldl pickNewer c = e := by
        exact Option.some.inj h
      have hfold := foldl_pickNewer_mem cs c
      rw [hfoldeq] at hfold
      rw [← hu] at hfold
      have hmf := List.mem_filter.mp hfold
      have hpred := hmf.2
      simp only [Bool.and_eq_true, Bool.not_eq_true', beq_iff_eq] at hpred
      refine ⟨hmf.1, hpred.1, hpred.2, ?_⟩
      intro e' he' hp' hproc'
      have he'in : e' ∈ unprocessedFor evs p := by
        refine List.mem_filter.mpr ⟨he', ?_⟩
        simp [hp', hproc']
      rw [hu] at he'in
      have hub := foldl_pickNewer_created_at_ge cs c e' he'in
      rw [hfoldeq] at hub
      exact hub

/-- Claim C1: for every event table and limit, `get_pending_events`
returns at most one event per path; every returned event is an
unprocessed event of the table whose enqueue time bounds that of every
unprocessed event for its path; the result is ordered by enqueue time
ascending; and its length is at most the limit. -/
theorem drain_pending_dedup_newest_ordered_bounded
    (limit : Nat) (evs : List EventRow) :
    (get_pending_events limit evs).length ≤ limit ∧
    (get_pending_events limit evs).Pairwise (fun a b => a.path ≠ b.path) ∧
    (get_pending_events limit evs).Pairwise timeLe ∧
    ∀ e ∈ get_pending_events limit evs,
      e ∈ evs ∧ e.processed = false ∧
        ∀ e' ∈ evs, e'.path = e.path → e'.processed = false →
          e'.created_at ≤ e.created_at := by
  refine ⟨List.length_take_le _ _, ?_, ?_, ?_⟩
  · have hnodup : (((evs.filter fun e => !e.processed).map (·.path)).dedup).Nodup :=
      List.nodup_dedup _
    have hpair : (selectedEvents evs).Pairwise (fun a b => a.path ≠ b.path) := by
      unfold selectedEvents
      refine List.pairwise_filterMap.mpr ?_
      refine hnodup.imp ?_
      intro p q hpq b hb b' hb'
      have h1 := (newestForPath_spec (Option.mem_def.mp hb)).2.2.1
      have h2 := (newestForPath_spec (Option.mem_def.mp hb')).2.2.1
      rw [h1, h2]
      exact hpq
    have hperm := List.perm_insertionSort timeLe (selectedEvents evs)
    have hsorted_pair :
        (List.insertionSort timeLe (selectedEvents evs)).Pairwise
          (fun a b => a.path ≠ b.path) :=
      (hperm.pairwise_iff (fun h => Ne.symm h)).mpr hpair
    exact List.Pairwise.sublist (List.take_sublist _ _) hsorted_pair
  · have hs := List.sorted_insertionSort timeLe (selectedEvents evs)
    exact List.Pairwise.sublist (List.take_sublist _ _) hs
  · intro e he
    have h1 : e ∈ List.insertionSort timeLe (selectedEvents evs) :=
      List.mem_of_mem_take he
    have h2 : e ∈ selectedEvents evs := (List.mem_insertionSort timeLe).mp h1
    unfold selectedEvents at h2
    rcases List.mem_filterMap.mp h2 with ⟨p, _, hnp⟩
    have hsp := newestForPath_spec hnp
    refine ⟨hsp.1, hsp.2.1, ?_⟩
    intro e' he' hpath hproc
    exact hsp.2.2.2 e' he' (hpath.trans hsp.2.2.1) hproc

/-- Witness for claim C1 at a concrete two-event table. -/
theorem drain_pending_dedup_newest_ordered_bounded_witness :
    (get_pending_events 5
      [⟨"a", "p", "create", 1, false⟩, ⟨"b", "p", "modify", 2, false⟩]).length ≤ 5 ∧
    (⟨"a", "p", "create", 1, false⟩ : EventRow).created_at ≤
      (⟨"b", "p", "modify", 2, false⟩ : EventRow).created_at := by
  have h := drain_pending_dedup_newest_ordered_bounded 5
    [⟨"a", "p", "create", 1, false⟩, ⟨"b", "p", "modify", 2, false⟩]
  refine ⟨h.1, ?_⟩
  exact (h.2.2.2 ⟨"b", "p", "modify", 2, false⟩ (by decide)).2.2
    ⟨"a", "p", "create", 1, false⟩ (by decide) (by decide) (by decide)

/-- Counterexample to claim C5: two events for one path with equal
enqueue timestamps (the clock of `queue_file_event` has one-second
resolution).  A delete with id "9zzz" is inserted first, then a create
with id "0aaa".  The tiebreaker `id DESC` compares the random UUID
strings, not insertion order, so the drain returns the earlier-inserted
delete: the later-inserted event does not win. -/
theorem drain_pending_tie_not_insertion_order :
    get_pending_events 10
      (queue_file_event "0aaa" "p" .create 10
        (queue_file_event "9zzz" "p" .delete 10 [])) =
      [⟨"9zzz", "p", "delete", 10, false⟩] := by
  decide

/-- Claim C5 (amended): among two same-path unprocessed events the drain
selects the one ranked greater in the lexicographic (created_at, id)
order: a strictly later enqueue time wins regardless of event kind, and
equal enqueue times are decided by the id strings in descending order
(random UUIDs), not by insertion order. -/
theorem drain_pending_lex_newest_wins (e1 e2 : EventRow) (limit : Nat)
    (hpath : e1.path = e2.path) (h1 : e1.processed = false)
    (h2 : e2.processed = false) (hlex : newerRanked e1 e2)
    (hlim : 0 < limit) :
    get_pending_events limit [e1, e2] = [e2] := by
  have hfil : ([e1, e2].filter fun e => !e.processed) = [e1, e2] := by
    simp [h1, h2]
  have hunp : unprocessedFor [e1, e2] e2.path = [e1, e2] := by
    simp [unprocessedFor, h1, h2, hpath]
  have hnp : newestForPath [e1, e2] e2.path = some e2 := by
    unfold newestForPath
    rw [hunp]
    simp [pickNewer, hlex]
  have hsel : selectedEvents [e1, e2] = [e2] := by
    unfold selectedEvents
    rw [hfil]
    simp only [List.map_cons, List.map_nil]
    rw [hpath]
    rw [List.dedup_cons_of_mem (by simp)]
    rw [List.dedup_cons_of_not_mem (by simp), List.dedup_nil]
    simp [hnp]
  unfold get_pending_events
  rw [hsel]
  have hsort : List.insertionSort timeLe [e2] = [e2] := by
    simp [List.insertionSort, List.orderedInsert]
  rw [hsort]
  exact List.take_of_length_le (by simpa using hlim)

/-- Witness for the amended claim C5 at two concrete events. -/
theorem drain_pending_lex_newest_wins_witness :
    get_pending_events 3
      [⟨"x", "q", "delete", 5, false⟩, ⟨"y", "q", "create", 7, false⟩] =
      [⟨"y", "q", "create", 7, false⟩] :=
  drain_pending_lex_newest_wins _ _ 3 rfl rfl rfl (by decide) (by decide)

/-- The row mutation of `Database::update_file`: UPDATE files SET
file_type = ?2, hash = ?3, updated_at = CURRENT_TIMESTAMP WHERE
path = ?1 (the AFTER UPDATE trigger writes the same timestamp). -/
def applyFileUpdate (p ft h now : String) (files : List FileRow) : List FileRow :=
  files.map fun f =>
    if f.path == p then { f with file_type := ft, hash := h, updated_at := now }
    else f

/-- `Database::create_file`: INSERT INTO files (id, path, file_type, hash)
VALUES (..) ON CONFLICT(path) DO UPDATE SET file_type, hash, updated_at
RETURNING the row.  `freshId` is the `Uuid::new_v4` value and `now` the
CURRENT_TIMESTAMP text. -/
def create_file (freshId p ft h now : String) (files : List FileRow) :
    FileRow × List FileRow :=
  match files.find? fun f => f.path == p with
  | some f =>
      ({ f with file_type := ft, hash := h, updated_at := now },
       applyFileUpdate p ft h now files)
  | none =>
      (⟨freshId, p, ft, h, now, now⟩, files ++ [⟨freshId, p, ft, h, now, now⟩])

/-- `Database::update_file`: UPDATE by path; when zero rows were updated,
fall back to `create_file`; otherwise SELECT the updated row.  The
SELECT is a fallible `query_row`, hence the Option result. -/
def update_file (freshId p ft h now : String) (files : List FileRow) :
    Option (FileRow × List FileRow) :=
  if (files.filter fun f => f.path == p).length = 0 then
    some (create_file freshId p ft h now files)
  else
    ((applyFileUpdate p ft h now files).find? fun f => f.path == p).map
      fun f => (f, applyFileUpdate p ft h now files)

/-- `Database::delete_file`: DELETE FROM files WHERE path = ?1 RETURNING
the row; `none` in the first component is the no-such-row error. -/
def delete_file (p : String) (files : List FileRow) :
    Option FileRow × List FileRow :=
  (files.find? fun f => f.path == p, files.filter fun f => !(f.path == p))

/-- Claim C10: for a path absent from the files table, `update_file` does
not fail: its UPDATE touches zero rows and it falls back to
`create_file`, inserting a fresh record under the freshly generated id;
and in every case a successful `update_file` returns a record whose path
is the requested one. -/
theorem update_file_fallback_create (freshId p ft h now : String)
    (files : List FileRow) :
    ((∀ f ∈ files, f.path ≠ p) →
      update_file freshId p ft h now files =
        some (⟨freshId, p, ft, h, now, now⟩,
          files ++ [⟨freshId, p, ft, h, now, now⟩])) ∧
    ∃ f fs2, update_file freshId p ft h now files = some (f, fs2) ∧
      f.path = p := by
  constructor
  · intro habs
    have hfil : (files.filter fun f => f.path == p) = [] :=
      List.filter_eq_nil_iff.mpr (fun f hf => by simp [habs f hf])
    have hfind : files.find? (fun f => f.path == p) = none :=
      List.find?_eq_none.mpr (fun f hf => by simp [habs f hf])
    unfold update_file create_file
    rw [hfil, hfind]
    rfl
  · by_cases hzero : (files.filter fun f => f.path == p).length = 0
    · unfold update_file
      rw [if_pos hzero]
      unfold create_file
      cases hfind : files.find? (fun f => f.path == p) with
      | none => exact ⟨⟨freshId, p, ft, h, now, now⟩, _, rfl, rfl⟩
      | some g =>
          have hg : g.path = p := by
            have := List.find?_some hfind
            simpa using this
          exact ⟨{ g with file_type := ft, hash := h, updated_at := now }, _,
            rfl, hg⟩
    · unfold update_file
      rw [if_neg hzero]
      have hne : (files.filter fun f => f.path == p) ≠ [] := by
        intro hh
        exact hzero (by rw [hh]; rfl)
      rcases List.exists_mem_of_ne_nil _ hne with ⟨x, hx⟩
      have hxf := List.mem_filter.mp hx
      have hxpath : x.path = p := by simpa using hxf.2
      have hmem2 : ({ x with file_type := ft, hash := h, updated_at := now } :
          FileRow) ∈ applyFileUpdate p ft h now files := by
        refine List.mem_map.mpr ⟨x, hxf.1, ?_⟩
        simp [hxpath]
      cases hfind : (applyFileUpdate p ft h now files).find?
          (fun f => f.path == p) with
      | none =>
          exfalso
          have := List.find?_eq_none.mp hfind _ hmem2
          simp [hxpath] at this
      | some y =>
          have hy : y.path = p := by
            have := List.find?_some hfind
            simpa using this
          exact ⟨y, applyFileUpdate p ft h now files, rfl, hy⟩

/-- Witness for claim C10 on the empty files table. -/
theorem update_file_fallback_create_witness :
    update_file "i1" "/a" "text/plain" "h1" "t1" [] =
      some (⟨"i1", "/a", "text/plain", "h1", "t1", "t1"⟩,
        [⟨"i1", "/a", "text/plain", "h1", "t1", "t1"⟩]) :=
  (update_file_fallback_create "i1" "/a" "text/plain" "h1" "t1" []).1
    (by simp)

/-- `JobRepository::insert_job`: INSERT INTO jobs (id, file_id, status,
error_message) VALUES (?1, ?2, "pending", NULL).  `freshId` is the
`Uuid::new_v4` value; `now` stands for the created_at column default. -/
def insert_job (file_id freshId now : String) (jobs : List JobRow) :
    List JobRow :=
  jobs ++ [⟨freshId, file_id, "pending", none, now⟩]

/-- One generated statement of `JobRepository::update_job_batch`:
UPDATE jobs SET status = .., error_message = .. WHERE id = ..; the
single-quote escaping in the Rust code makes the interpolated values
literal, so the statement sets exactly these two columns on the rows
whose id matches. -/
def set_job_row (status : String) (err : Option String) (jid : String)
    (jobs : List JobRow) : List JobRow :=
  jobs.map fun j =>
    if j.id == jid then { j with status := status, error_message := err }
    else j

/-- `JobRepository::update_job_batch`: the concatenated per-id UPDATE
statements are run in order by `execute_batch`. -/
def update_job_batch (job_ids : List String) (status : String)
    (err : Option String) (jobs : List JobRow) : List JobRow :=
  job_ids.foldl (fun js jid => set_job_row status err jid js) jobs

/-- The committed state when only the first `k` statements of the batch
have run: `execute_batch` does not wrap the generated statements in a
transaction (the SQL string holds no BEGIN/COMMIT), so every UPDATE
commits by itself and an interruption after `k` statements durably
leaves exactly their effects. -/
def update_job_batch_upto (k : Nat) (job_ids : List String) (status : String)
    (err : Option String) (jobs : List JobRow) : List JobRow :=
  update_job_batch (job_ids.take k) status err jobs

/-- Claim C2 evaluated at a failing input: a batch over two pending jobs,
interrupted after the first UPDATE statement, leaves a committed state
that is neither the initial state nor the fully updated one — job j1 is
completed while job j2 is still pending — so `update_job_batch` is not
all-or-nothing. -/
theorem update_job_batch_interruption_partial_state :
    update_job_batch_upto 1 ["j1", "j2"] "completed" none
        [⟨"j1", "f1", "pending", none, "t0"⟩,
         ⟨"j2", "f1", "pending", none, "t0"⟩] =
      [⟨"j1", "f1", "completed", none, "t0"⟩,
       ⟨"j2", "f1", "pending", none, "t0"⟩] ∧
    update_job_batch_upto 1 ["j1", "j2"] "completed" none
        [⟨"j1", "f1", "pending", none, "t0"⟩,
         ⟨"j2", "f1", "pending", none, "t0"⟩] ≠
      [⟨"j1", "f1", "pending", none, "t0"⟩,
       ⟨"j2", "f1", "pending", none, "t0"⟩] ∧
    update_job_batch_upto 1 ["j1", "j2"] "completed" none
        [⟨"j1", "f1", "pending", none, "t0"⟩,
         ⟨"j2", "f1", "pending", none, "t0"⟩] ≠
      update_job_batch ["j1", "j2"] "completed" none
        [⟨"j1", "f1", "pending", none, "t0"⟩,
         ⟨"j2", "f1", "pending", none, "t0"⟩] := by
  decide

/-- Counterexample to claim C9: the repository operations do not make
completed terminal.  A job inserted pending is set to completed by one
`update_job_batch` call (skipping running), and a further call moves it
back out of the terminal status to pending. -/
theorem completed_job_reverted_to_pending :
    update_job_batch ["j1"] "completed" none
        (insert_job "f1" "j1" "t0" []) =
      [⟨"j1", "f1", "completed", none, "t0"⟩] ∧
    update_job_batch ["j1"] "pending" none
        [⟨"j1", "f1", "completed", none, "t0"⟩] =
      [⟨"j1", "f1", "pending", none, "t0"⟩] := by
  decide

/-- Claim C9 (amended): `insert_job` always creates a job with status
pending, and `update_job_batch` overwrites the status and error message
of every listed job unconditionally, with no regard to the current
status — the repository enforces no monotonic state machine and no
terminal statuses. -/
theorem job_repo_transitions_unrestricted :
    (∀ file_id freshId now jobs,
      insert_job file_id freshId now jobs =
        jobs ++ [⟨freshId, file_id, "pending", none, now⟩]) ∧
    (∀ ids st err jobs,
      update_job_batch ids st err jobs =
        jobs.map fun j =>
          if ids.contains j.id then { j with status := st, error_message := err }
          else j) := by
  constructor
  · intro file_id freshId now jobs
    rfl
  · intro ids st err
    induction ids with
    | nil =>
        intro jobs
        simp [update_job_batch]
    | cons a as ih =>
        intro jobs
        show update_job_batch as st err (set_job_row st err a jobs) = _
        rw [ih]
        unfold set_job_row
        rw [List.map_map]
        apply List.map_congr_left
        intro j _
        simp only [Function.comp_apply]
        by_cases hja : j.id = a
        · by_cases hc : j.id ∈ as
          · simp [hja, hc]
          · simp [hja, hc]
        · by_cases hc : j.id ∈ as
          · simp [hja, hc]
          · simp [hja, hc]

/-- `EmbeddingRepository::insert_embedding`: INSERT INTO embeddings
(id, file_id, embedding) VALUES (?1, ?2, ?3). -/
def insert_embedding (file_id freshId emb : String)
    (embs : List EmbeddingRow) : List EmbeddingRow :=
  embs ++ [⟨freshId, file_id, emb⟩]

/-- The tables of the embedded store as one state.  `Database::new`
creates only `files` and `file_events`; the `jobs` and `embeddings`
tables addressed by the repository modules are carried here so that
claims about them can be stated.  The schema declares no foreign keys
and the SQLite foreign_keys pragma is never enabled, so no operation
cascades across tables. -/
structure DB where
  files : List FileRow
  file_events : List EventRow
  jobs : List JobRow
  embeddings : List EmbeddingRow
deriving DecidableEq

/-- One path on the filesystem as the dispatcher observes it: whether
opening and reading succeeds (`get_file_type` and `hash_file` both do IO
on the path and fail exactly when it is unreadable), and the file type
and hash they produce when it does. -/
structure FsEntry where
  readable : Bool
  file_type : String
  hash : String
deriving DecidableEq

/-- The filesystem as a finite map from paths to entries; a path that is
absent is one for which `Path::new(p).exists()` is false. -/
abbrev Fs := List (String × FsEntry)

/-- Lookup of one path on the modelled filesystem. -/
def fsLookup (fs : Fs) (p : String) : Option FsEntry :=
  (fs.find? fun x => x.1 == p).map (·.2)

/-- `process_queued_event` of `src/main.rs` on one drained event.
A create or modify event whose path no longer exists is skipped: the
events of the path are marked processed and the function returns Ok.
When the path exists but is unreadable, the IO error of `get_file_type`
or `hash_file` propagates through `?` before any store write, so the
store is unchanged.  The read-and-embed step that follows the store
writes only logs: its result is never persisted and its errors are
swallowed, so it leaves no trace in the state.  A delete event drops
the files row (a failing DELETE is logged and ignored) and marks the
events processed.  The second component is the error of the returned
Result. -/
def process_queued_event (fs : Fs) (freshId now : String) (ev : EventRow)
    (db : DB) : DB × Option String :=
  match parseEventTypeOrCreate ev.event_type with
  | .delete =>
      ({ db with
          files := (delete_file ev.path db.files).2,
          file_events :=
            (mark_event_processed ev.path ev.created_at db.file_events).2 },
        none)
  | k =>
      match fsLookup fs ev.path with
      | none =>
          ({ db with
              file_events :=
                (mark_event_processed ev.path ev.created_at db.file_events).2 },
            none)
      | some entry =>
          if entry.readable then
            match k with
            | .create =>
                ({ db with
                    files := (create_file freshId ev.path entry.file_type
                      entry.hash now db.files).2,
                    file_events := (mark_event_processed ev.path ev.created_at
                      db.file_events).2 },
                  none)
            | .modify =>
                match update_file freshId ev.path entry.file_type entry.hash
                    now db.files with
                | some r =>
                    ({ db with
                        files := r.2,
                        file_events := (mark_event_processed ev.path
                          ev.created_at db.file_events).2 },
                      none)
                | none => (db, some "store error")
            | .delete => (db, some "unreachable")
          else (db, some "io error")

/-- The loop body of `process_event_queue`: each drained event is
processed in turn; a per-event error is logged (collected in the second
component) and the loop continues with the remaining events.  `gen`
supplies the fresh uuid and timestamp the nth event of the batch
consumes. -/
def runBatch (fs : Fs) (gen : Nat → String × String) :
    List EventRow → Nat → DB → DB × List String
  | [], _, db => (db, [])
  | e :: es, n, db =>
      match process_queued_event fs (gen n).1 (gen n).2 e db with
      | (db2, none) => runBatch fs gen es (n + 1) db2
      | (db2, some msg) =>
          ((runBatch fs gen es (n + 1) db2).1,
            msg :: (runBatch fs gen es (n + 1) db2).2)

/-- `process_event_queue` of `src/main.rs`: drain up to `batch_size`
events with `get_pending_events` and process each one, isolating
per-event errors. -/
def process_event_queue (fs : Fs) (gen : Nat → String × String)
    (batch_size : Nat) (db : DB) : DB × List String :=
  runBatch fs gen (get_pending_events batch_size db.file_events) 0 db

/-- Claim C4 evaluated at a failing input: deleting the file record of a
path whose file id owns a job row and an embedding row removes only the
files row.  The schema of `Database::new` declares no foreign keys (and
never even creates the jobs and embeddings tables), so nothing cascades:
the job and the embedding survive as orphans. -/
theorem delete_file_leaves_orphan_rows :
    (process_queued_event [] "i0" "t1" ⟨"e1", "/a", "delete", 5, false⟩
        ⟨[⟨"f1", "/a", "text/plain", "h", "c0", "c0"⟩],
         [⟨"e1", "/a", "delete", 5, false⟩],
         [⟨"j1", "f1", "pending", none, "c0"⟩],
         [⟨"m1", "f1", "[0.1, 0.2]"⟩]⟩).1 =
      ⟨[], [⟨"e1", "/a", "delete", 5, true⟩],
       [⟨"j1", "f1", "pending", none, "c0"⟩],
       [⟨"m1", "f1", "[0.1, 0.2]"⟩]⟩ := by
  decide

/-- Counterexample to claim C7: a create event drained for a path that
no longer exists on the filesystem.  The code marks the event processed
and returns Ok, but no job is left failed with a "file vanished"
message — the jobs table stays empty, so no job carries the failure. -/
theorem vanished_file_no_failed_job :
    process_queued_event [] "i0" "t0" ⟨"e1", "/gone", "create", 3, false⟩
        ⟨[], [⟨"e1", "/gone", "create", 3, false⟩], [], []⟩ =
      (⟨[], [⟨"e1", "/gone", "create", 3, true⟩], [], []⟩, none) ∧
    (process_queued_event [] "i0" "t0" ⟨"e1", "/gone", "create", 3, false⟩
        ⟨[], [⟨"e1", "/gone", "create", 3, false⟩], [], []⟩).1.jobs.filter
      (fun j => j.status == "failed") = [] := by
  decide

/-- Claim C7 (amended): when a drained create or modify event refers to
a path that no longer exists, processing raises no error, marks the
unprocessed events of that path up to the event timestamp as processed,
and changes nothing else — in particular no job is updated and no
"file vanished" failure is recorded anywhere. -/
theorem vanished_file_marks_processed_only (fs : Fs) (freshId now : String)
    (ev : EventRow) (db : DB) (hmiss : fsLookup fs ev.path = none)
    (hk : parseEventTypeOrCreate ev.event_type ≠ .delete) :
    process_queued_event fs freshId now ev db =
      ({ db with
          file_events :=
            (mark_event_processed ev.path ev.created_at db.file_events).2 },
        none) := by
  cases hk2 : parseEventTypeOrCreate ev.event_type with
  | delete => exact absurd hk2 hk
  | create => simp [process_queued_event, hk2, hmiss]
  | modify => simp [process_queued_event, hk2, hmiss]

/-- Witness for the amended claim C7 at a concrete vanished path. -/
theorem vanished_file_marks_processed_only_witness :
    process_queued_event [] "w1" "w2" ⟨"e9", "/w", "modify", 4, false⟩
        ⟨[], [⟨"e9", "/w", "modify", 4, false⟩], [], []⟩ =
      (⟨[], [⟨"e9", "/w", "modify", 4, true⟩], [], []⟩, none) := by
  have h := vanished_file_marks_processed_only [] "w1" "w2"
    ⟨"e9", "/w", "modify", 4, false⟩
    ⟨[], [⟨"e9", "/w", "modify", 4, false⟩], [], []⟩ rfl (by decide)
  rw [h]
  decide

/-- Claim C3 evaluated at the failing input: a create event and then a
modify event for "/a.txt" inside one batch window.  The drain coalesces
them into the modify event, processing upserts the file record and marks
both events processed, but no Job row is ever created — the jobs table
stays empty, not "exactly one job", because `process_queued_event` never
calls `JobRepository::insert_job` (nor checks for a pending job). -/
theorem create_then_modify_creates_no_job :
    (process_event_queue [("/a.txt", ⟨true, "text/plain", "hash1"⟩)]
        (fun _ => ("id0", "t0")) 10
        ⟨[], queue_file_event "e2" "/a.txt" .modify 2
            (queue_file_event "e1" "/a.txt" .create 1 []), [], []⟩).1.jobs =
      [] ∧
    (process_event_queue [("/a.txt", ⟨true, "text/plain", "hash1"⟩)]
        (fun _ => ("id0", "t0")) 10
        ⟨[], queue_file_event "e2" "/a.txt" .modify 2
            (queue_file_event "e1" "/a.txt" .create 1 []), [], []⟩).1 =
      ⟨[⟨"id0", "/a.txt", "text/plain", "hash1", "t0", "t0"⟩],
       [⟨"e1", "/a.txt", "create", 1, true⟩,
        ⟨"e2", "/a.txt", "modify", 2, true⟩], [], []⟩ := by
  decide

/-- `process_queued_event` never writes the jobs table. -/
theorem process_queued_event_jobs_eq (fs : Fs) (freshId now : String)
    (ev : EventRow) (db : DB) :
    (process_queued_event fs freshId now ev db).1.jobs = db.jobs := by
  cases hk : parseEventTypeOrCreate ev.event_type with
  | delete => simp [process_queued_event, hk]
  | create =>
      cases hl : fsLookup fs ev.path with
      | none => simp [process_queued_event, hk, hl]
      | some entry =>
          by_cases hr : entry.readable = true
          · simp [process_queued_event, hk, hl, hr]
          · simp [process_queued_event, hk, hl, hr]
  | modify =>
      cases hl : fsLookup fs ev.path with
      | none => simp [process_queued_event, hk, hl]
      | some entry =>
          by_cases hr : entry.readable = true
          · cases hu : update_file freshId ev.path entry.file_type entry.hash
                now db.files with
            | none => simp [process_queued_event, hk, hl, hr, hu]
            | some r => simp [process_queued_event, hk, hl, hr, hu]
          · simp [process_queued_event, hk, hl, hr]

/-- The batch loop never writes the jobs table. -/
theorem runBatch_jobs_eq (fs : Fs) (gen : Nat → String × String) :
    ∀ (es : List EventRow) (n : Nat) (db : DB),
      (runBatch fs gen es n db).1.jobs = db.jobs := by
  intro es
  induction es with
  | nil => intro n db; rfl
  | cons e es ih =>
      intro n db
      have hjobs := process_queued_event_jobs_eq fs (gen n).1 (gen n).2 e db
      cases hpe : process_queued_event fs (gen n).1 (gen n).2 e db with
      | mk db2 merr =>
          rw [hpe] at hjobs
          cases merr with
          | none =>
              simp only [runBatch, hpe]
              rw [ih (n + 1) db2]
              exact hjobs
          | some msg =>
              simp only [runBatch, hpe]
              rw [ih (n + 1) db2]
              exact hjobs

/-- Processing a batch decomposes along any split of the event list: the
events after the split are processed exactly as they would be from the
state the earlier events produced, whether or not any earlier event
errored. -/
theorem runBatch_append (fs : Fs) (gen : Nat → String × String) :
    ∀ (es1 es2 : List EventRow) (n : Nat) (db : DB),
      runBatch fs gen (es1 ++ es2) n db =
        ((runBatch fs gen es2 (n + es1.length)
            (runBatch fs gen es1 n db).1).1,
          (runBatch fs gen es1 n db).2 ++
            (runBatch fs gen es2 (n + es1.length)
              (runBatch fs gen es1 n db).1).2) := by
  intro es1
  induction es1 with
  | nil =>
      intro es2 n db
      simp [runBatch]
  | cons e es1 ih =>
      intro es2 n db
      have harith : n + (es1.length + 1) = (n + 1) + es1.length := by omega
      cases hpe : process_queued_event fs (gen n).1 (gen n).2 e db with
      | mk db2 merr =>
          cases merr with
          | none =>
              simp only [List.cons_append, runBatch, hpe, List.length_cons,
                harith, List.append_eq]
              exact ih es2 (n + 1) db2
          | some msg =>
              simp only [List.cons_append, runBatch, hpe, List.length_cons,
                harith, List.append_eq]
              rw [ih es2 (n + 1) db2]

/-- Counterexample to claim C8: a batch of three create events where the
middle file is present but unreadable.  The error does not abort the
batch — the first and third events are fully processed and their file
records created, and the middle event is left unprocessed for a retry —
but the failure is only collected in the returned error log: the jobs
table stays empty, so it is not recorded against that event's job. -/
theorem batch_error_not_recorded_in_jobs :
    process_event_queue
        [("/1", ⟨true, "t", "h1"⟩), ("/2", ⟨false, "t", "h2"⟩),
         ("/3", ⟨true, "t", "h3"⟩)]
        (fun _ => ("g", "tn")) 10
        ⟨[], [⟨"a", "/1", "create", 1, false⟩, ⟨"b", "/2", "create", 2, false⟩,
          ⟨"c", "/3", "create", 3, false⟩], [], []⟩ =
      (⟨[⟨"g", "/1", "t", "h1", "tn", "tn"⟩, ⟨"g", "/3", "t", "h3", "tn", "tn"⟩],
        [⟨"a", "/1", "create", 1, true⟩, ⟨"b", "/2", "create", 2, false⟩,
         ⟨"c", "/3", "create", 3, true⟩], [], []⟩,
       ["io error"]) := by
  decide

/-- Claim C8 (amended): during one batch drain an error while processing
a single event never aborts the batch or the loop: the events after any
point of the batch are processed exactly as they would be from the state
reached so far (so a failing event never blocks the rest), and failures
are only reported in the collected error log — no job status is written,
the jobs table is unchanged by the entire drain. -/
theorem batch_isolation_jobs_unchanged :
    (∀ (fs : Fs) (gen : Nat → String × String) (batch_size : Nat) (db : DB),
      (process_event_queue fs gen batch_size db).1.jobs = db.jobs) ∧
    (∀ (fs : Fs) (gen : Nat → String × String) (es1 es2 : List EventRow)
        (n : Nat) (db : DB),
      runBatch fs gen (es1 ++ es2) n db =
        ((runBatch fs gen es2 (n + es1.length)
            (runBatch fs gen es1 n db).1).1,
          (runBatch fs gen es1 n db).2 ++
            (runBatch fs gen es2 (n + es1.length)
              (runBatch fs gen es1 n db).1).2)) :=
  ⟨fun fs gen batch_size db => runBatch_jobs_eq fs gen
    (get_pending_events batch_size db.file_events) 0 db,
   fun fs gen es1 es2 n db => runBatch_append fs gen es1 es2 n db⟩
